import Mathlib

/-!
Verification development for the reactive pipeline and the pure financial
calculation functions of the webapp repository (`src/api/pureHelpers.ts` and
`src/api/observables.ts`).

Modelling conventions.
* JavaScript / BigNumber decimal arithmetic is embedded as exact rational
  arithmetic (`ℚ`).  The one place where the distinction between a finite
  number and the IEEE special values `NaN` / `Infinity` matters for the
  claims under study is the unguarded ROI division in `groupPositionsArray`;
  that division is therefore modelled by `jsDiv`, which returns a value of
  the sum type `JsNum` reproducing JavaScript's division-by-zero behaviour.
* Reactive streams are embedded as the finite list of values a stream emits,
  in emission order; an operator pipeline becomes a function on such lists.
* Fallible code (the unguarded `arr[0]` dereference on an empty input array)
  is embedded with `Option`: `none` models the thrown `TypeError`.
-/

namespace Webapp

/-- The subset of JavaScript numbers needed here: a finite value (kept exact
as a rational) or one of the special values produced by dividing by zero. -/
inductive JsNum where
  | num (q : ℚ)
  | nan
  | posInf
  | negInf
deriving DecidableEq

/-- JavaScript / BigNumber division on (exactly represented) numbers:
`x / 0` is `NaN` when `x = 0`, `Infinity` when `x > 0` and `-Infinity` when
`x < 0`. -/
def jsDiv (a b : ℚ) : JsNum :=
  if b = 0 then
    if a = 0 then JsNum.nan else if 0 < a then JsNum.posInf else JsNum.negInf
  else JsNum.num (a / b)

/-- BigNumber `dividedBy` extended to the whole value space: `NaN` is
absorbing, a finite value divided by an infinity is zero, an infinity
divided by a finite value keeps an infinity with the sign product, and
infinity over infinity is `NaN`.  BigNumber's negatively signed zero is not
distinguished from zero: BigNumber's `comparedTo` treats all zeros as
equal, and as a divisor a negative zero could only flip the sign of an
infinite quotient, for which both threshold comparisons below fail either
way, leaving the guard's boolean unchanged. -/
def dividedBy : JsNum → JsNum → JsNum
  | JsNum.num a, JsNum.num b => jsDiv a b
  | JsNum.nan, _ => JsNum.nan
  | _, JsNum.nan => JsNum.nan
  | JsNum.num _, JsNum.posInf => JsNum.num 0
  | JsNum.num _, JsNum.negInf => JsNum.num 0
  | JsNum.posInf, JsNum.num b => if b < 0 then JsNum.negInf else JsNum.posInf
  | JsNum.negInf, JsNum.num b => if b < 0 then JsNum.posInf else JsNum.negInf
  | JsNum.posInf, JsNum.posInf => JsNum.nan
  | JsNum.posInf, JsNum.negInf => JsNum.nan
  | JsNum.negInf, JsNum.posInf => JsNum.nan
  | JsNum.negInf, JsNum.negInf => JsNum.nan

/-- BigNumber `isGreaterThan`: any comparison involving `NaN` is `false`;
`Infinity` exceeds everything but itself, `-Infinity` exceeds nothing. -/
def isGreaterThan : JsNum → JsNum → Bool
  | JsNum.num a, JsNum.num b => decide (b < a)
  | JsNum.nan, _ => false
  | _, JsNum.nan => false
  | JsNum.num _, JsNum.posInf => false
  | JsNum.num _, JsNum.negInf => true
  | JsNum.posInf, JsNum.posInf => false
  | JsNum.posInf, _ => true
  | JsNum.negInf, _ => false

/-- Modelled from the spec: `compareString` is imported from `api/helpers`,
which is not part of `src/`.  The spec describes its uses as plain string
equality ("string/structural equality" for cache distinctness, and testing
whether `symbol` denotes the network's base reserve token `BNT`). -/
def compareString (a b : String) : Bool := a == b

/-! ### Data model: `ViewProtectedLiquidity` and `ViewGroupedPositions`

The TypeScript interfaces live in `@/types/bancor` (outside `src/`); the
fields below are exactly the ones `groupPositionsArray` reads and writes,
typed per the spec's data model (monetary amounts as arbitrary-precision
decimals, timestamps as integers). -/

/-- The `stake` sub-record of a raw protected-liquidity position. -/
structure StakeDetail where
  amount : ℚ
  unixTime : ℤ
  symbol : String
  poolId : String
deriving DecidableEq

/-- A sub-record holding a single monetary amount (`fullyProtected`,
`protectedAmount`, `fees`); the source guards each of these with an
existence check, hence the `Option` at the use sites. -/
structure AmountDetail where
  amount : ℚ
deriving DecidableEq

/-- One raw protected-liquidity position (`ViewProtectedLiquidity`). -/
structure ViewProtectedLiquidity where
  id : String
  stake : StakeDetail
  fullyProtected : Option AmountDetail
  protectedAmount : Option AmountDetail
  fees : Option AmountDetail
  pendingReserveReward : ℚ
  apr : ℚ
  insuranceStart : ℤ
  coverageDecPercent : ℚ
  fullCoverage : ℤ
  bntTokenPrice : ℚ
  reserveTokenPrice : ℚ
deriving DecidableEq

/-- The summed `stake` record of a grouped position. -/
structure GroupedStake where
  amount : ℚ
  usdValue : ℚ
  unixTime : ℤ
deriving DecidableEq

/-- A summed amount plus its USD display value. -/
structure GroupedAmount where
  amount : ℚ
  usdValue : ℚ
deriving DecidableEq

/-- One aggregated position (`ViewGroupedPositions`). -/
structure ViewGroupedPositions where
  id : String
  positionId : String
  poolId : String
  symbol : String
  apr : ℚ
  insuranceStart : ℤ
  coverageDecPercent : ℚ
  fullCoverage : ℤ
  pendingReserveReward : ℚ
  collapsedData : List ViewProtectedLiquidity
  stake : GroupedStake
  fullyProtected : GroupedAmount
  protectedAmount : GroupedAmount
  roi : JsNum
  fees : ℚ
deriving DecidableEq

/-- The grouping key: the template literal `` `${poolId}-${symbol}` ``. -/
def keyOf (v : ViewProtectedLiquidity) : String :=
  v.stake.poolId ++ "-" ++ v.stake.symbol

/-- `arr.filter(x => x.stake.poolId === poolId && x.stake.symbol === symbol)`. -/
def filteredFor (arr : List ViewProtectedLiquidity) (poolId symbol : String) :
    List ViewProtectedLiquidity :=
  arr.filter (fun x => x.stake.poolId == poolId && x.stake.symbol == symbol)

/-- `filtered.map(x => Number(x.stake.amount || 0)).reduce((s, c) => s + c)`. -/
def sumStakeAmount (filtered : List ViewProtectedLiquidity) : ℚ :=
  (filtered.map (fun x => x.stake.amount)).sum

/-- `filtered.map(x => Number(x.fullyProtected ? x.fullyProtected.amount : 0))`
summed. -/
def sumFullyProtected (filtered : List ViewProtectedLiquidity) : ℚ :=
  (filtered.map (fun x => match x.fullyProtected with
    | some a => a.amount
    | none => 0)).sum

/-- `filtered.map(x => Number(x.protectedAmount ? x.protectedAmount.amount : 0))`
summed. -/
def sumProtectedAmount (filtered : List ViewProtectedLiquidity) : ℚ :=
  (filtered.map (fun x => match x.protectedAmount with
    | some a => a.amount
    | none => 0)).sum

/-- `filtered.map(x => Number(x.fees ? x.fees.amount : 0)).reduce(.., 0)`. -/
def sumFees (filtered : List ViewProtectedLiquidity) : ℚ :=
  (filtered.map (fun x => match x.fees with
    | some a => a.amount
    | none => 0)).sum

/-- The reward-adjusted fully-protected sum of the group created from `val`:
`item.pendingReserveReward` (which the source has just set to the creating
member's `val.pendingReserveReward`) is added directly when the symbol is
`BNT`, otherwise converted via `bntTokenPrice / reserveTokenPrice` first. -/
def sumFullyProtectedWithReward (arr : List ViewProtectedLiquidity)
    (val : ViewProtectedLiquidity) : ℚ :=
  let filtered := filteredFor arr val.stake.poolId val.stake.symbol
  if compareString val.stake.symbol "BNT" then
    val.pendingReserveReward + sumFullyProtected filtered
  else
    val.pendingReserveReward * val.bntTokenPrice / val.reserveTokenPrice +
      sumFullyProtected filtered

/-- The reward-adjusted protected sum, same adjustment as
`sumFullyProtectedWithReward` but over `protectedAmount`. -/
def sumProtectedWithReward (arr : List ViewProtectedLiquidity)
    (val : ViewProtectedLiquidity) : ℚ :=
  let filtered := filteredFor arr val.stake.poolId val.stake.symbol
  if compareString val.stake.symbol "BNT" then
    val.pendingReserveReward + sumProtectedAmount filtered
  else
    val.pendingReserveReward * val.bntTokenPrice / val.reserveTokenPrice +
      sumProtectedAmount filtered

/-- The `if (!item)` creation block of `groupPositionsArray`: the fresh
`ViewGroupedPositions` object with all summed fields, before the two
trailing `if` statements of the loop body run for the creating member. -/
def mkNewItem (arr : List ViewProtectedLiquidity)
    (val : ViewProtectedLiquidity) : ViewGroupedPositions :=
  let symbol := val.stake.symbol
  let poolId := val.stake.poolId
  let filtered := filteredFor arr poolId symbol
  let ss := sumStakeAmount filtered
  let sfpr := sumFullyProtectedWithReward arr val
  let spr := sumProtectedWithReward arr val
  { id := poolId ++ "-" ++ symbol
    positionId := val.id
    poolId := poolId
    symbol := symbol
    apr := val.apr
    insuranceStart := val.insuranceStart
    coverageDecPercent := val.coverageDecPercent
    fullCoverage := val.fullCoverage
    pendingReserveReward := val.pendingReserveReward
    collapsedData := []
    stake := { amount := ss
               usdValue := ss * val.reserveTokenPrice
               unixTime := val.stake.unixTime }
    fullyProtected := { amount := sfpr
                        usdValue := sfpr * val.reserveTokenPrice }
    protectedAmount := { amount := spr
                         usdValue := spr * val.reserveTokenPrice }
    roi := jsDiv (sfpr - ss) ss
    fees := sumFees filtered }

/-- Descending-by-stake-timestamp comparison used for `collapsedData`. -/
def timeDesc (a b : ViewProtectedLiquidity) : Prop :=
  b.stake.unixTime ≤ a.stake.unixTime

instance : DecidableRel timeDesc := fun a b =>
  inferInstanceAs (Decidable (b.stake.unixTime ≤ a.stake.unixTime))

instance : IsTotal ViewProtectedLiquidity timeDesc :=
  ⟨fun a b => le_total b.stake.unixTime a.stake.unixTime⟩

instance : IsTrans ViewProtectedLiquidity timeDesc :=
  ⟨fun _ _ _ h₁ h₂ => le_trans h₂ h₁⟩

/-- `sort(item.collapsedData).desc(p => p.stake.unixTime)`. -/
def sortCollapsed (l : List ViewProtectedLiquidity) :
    List ViewProtectedLiquidity :=
  l.insertionSort timeDesc

/-- The two trailing `if` statements of the loop body, run for every member
`val` against its group `item`: the earliest-insurance update, then the
`collapsedData` push-and-resort when the member's filter has > 1 entries. -/
def applyVal (arr : List ViewProtectedLiquidity) (item : ViewGroupedPositions)
    (val : ViewProtectedLiquidity) : ViewGroupedPositions :=
  let filtered := filteredFor arr val.stake.poolId val.stake.symbol
  let item :=
    if val.insuranceStart < item.insuranceStart then
      { item with insuranceStart := val.insuranceStart
                  coverageDecPercent := val.coverageDecPercent
                  fullCoverage := val.fullCoverage
                  stake := { item.stake with unixTime := val.stake.unixTime } }
    else item
  if 1 < filtered.length then
    { item with collapsedData := sortCollapsed (item.collapsedData ++ [val]) }
  else item

/-- The reducer's persistent state: the `Map` keyed by the group id (an
association list, since later iterations mutate the stored objects) and the
`acc` output array, represented by the ids of the groups it holds in push
order (the array holds references, so its entries are the final objects). -/
structure GroupAcc where
  groupsById : List (String × ViewGroupedPositions)
  orderedIds : List String

/-- `Map.get` on the association list. -/
def lookupG : List (String × ViewGroupedPositions) → String →
    Option ViewGroupedPositions
  | [], _ => none
  | (k, g) :: rest, key => if k = key then some g else lookupG rest key

/-- `Map.set` on the association list (replace or append). -/
def insertG : List (String × ViewGroupedPositions) → String →
    ViewGroupedPositions → List (String × ViewGroupedPositions)
  | [], key, g => [(key, g)]
  | (k, g₀) :: rest, key, g =>
      if k = key then (key, g) :: rest else (k, g₀) :: insertG rest key g

/-- One iteration of the `reduce` callback of `groupPositionsArray`. -/
def groupStep (arr : List ViewProtectedLiquidity) (acc : GroupAcc)
    (val : ViewProtectedLiquidity) : GroupAcc :=
  let id := keyOf val
  match lookupG acc.groupsById id with
  | some item =>
      { acc with groupsById := insertG acc.groupsById id (applyVal arr item val) }
  | none =>
      { groupsById :=
          insertG acc.groupsById id (applyVal arr (mkNewItem arr val) val)
        orderedIds := acc.orderedIds ++ [id] }

/-- `groupPositionsArray`.  The source unconditionally dereferences
`arr[0].pendingReserveReward` before grouping, so the empty input throws a
`TypeError`; this is modelled by returning `none`. -/
def groupPositionsArray (arr : List ViewProtectedLiquidity) :
    Option (List ViewGroupedPositions) :=
  match arr with
  | [] => none
  | _ :: _ =>
      let final := arr.foldl (groupStep arr) ⟨[], []⟩
      some (final.orderedIds.filterMap (lookupG final.groupsById))

/-! ### Characterisation helpers for `groupPositionsArray` -/

/-- All members of the input that share the grouping key `key`. -/
def membersOf (arr : List ViewProtectedLiquidity) (key : String) :
    List ViewProtectedLiquidity :=
  arr.filter (fun x => keyOf x == key)

/-- The group stored under `key` after the members drawn from `done` have
been processed (the sums inside `mkNewItem` always read the full input
`arr`, as in the source). -/
def groupFor (arr done : List ViewProtectedLiquidity) (key : String) :
    Option ViewGroupedPositions :=
  match membersOf done key with
  | [] => none
  | v :: vs => some ((v :: vs).foldl (applyVal arr) (mkNewItem arr v))

/-- The first member of each distinct grouping key, in input order. -/
def firstOccs (arr : List ViewProtectedLiquidity) :
    List ViewProtectedLiquidity :=
  arr.foldl (fun fs v => if keyOf v ∈ fs.map keyOf then fs else fs ++ [v]) []

/-- The finished group created by the first member `v` of its key. -/
def buildGroup (arr : List ViewProtectedLiquidity)
    (v : ViewProtectedLiquidity) : ViewGroupedPositions :=
  (membersOf arr (keyOf v)).foldl (applyVal arr) (mkNewItem arr v)

/-- The loop invariant tying the reducer state to the processed input. -/
def InvAt (arr done : List ViewProtectedLiquidity) (acc : GroupAcc) : Prop :=
  acc.orderedIds = (firstOccs done).map keyOf ∧
  ∀ key, lookupG acc.groupsById key = groupFor arr done key

/-- Distinct `(poolId, symbol)` pairs of the input produce distinct grouping
keys (the source's key `` `${poolId}-${symbol}` `` identifies the pair; this
rules out hyphen-ambiguous collisions such as `("a-b", "c")` / `("a", "b-c")`). -/
def KeyInjOn (arr : List ViewProtectedLiquidity) : Prop :=
  ∀ x ∈ arr, ∀ y ∈ arr, keyOf x = keyOf y →
    x.stake.poolId = y.stake.poolId ∧ x.stake.symbol = y.stake.symbol

/-! ### `calculatePriceDeviationTooHigh` -/

/-- `calculatePriceDeviationTooHigh` from `pureHelpers.ts`.  The arguments
are the finite decimal values the callers wrap in BigNumbers; every
intermediate division is BigNumber division, so a zero denominator yields
`NaN` / `Infinity` (not a rational), and the two `isGreaterThan` guards
follow BigNumber comparison semantics on those special values. -/
def calculatePriceDeviationTooHigh (averageRate primaryReserveBalance
    secondaryReserveBalance averageRateMaxDeviation : ℚ) : Bool :=
  let spotRate := jsDiv primaryReserveBalance secondaryReserveBalance
  let averageRateMaxDeviationBase := 1000000 - averageRateMaxDeviation
  let threshold := dividedBy (JsNum.num averageRate) spotRate
  let withinLowerThreshold :=
    isGreaterThan threshold (jsDiv averageRateMaxDeviationBase 1000000)
  let withinHigherThreshold :=
    isGreaterThan (jsDiv 1000000 averageRateMaxDeviationBase) threshold
  !(withinLowerThreshold && withinHigherThreshold)

/-! ### `calculateLimits` -/

/-- Digit run to a natural number (`BigNumber` integer-part semantics). -/
def digitsToNat (cs : List Char) : ℕ :=
  cs.foldl (fun acc c => acc * 10 + (c.toNat - '0'.toNat)) 0

/-- The character-level decomposition of a decimal string: sign flag, the
integer-part digits' value, the fraction-part digits' value, and the number
of fraction digits. -/
def bigNumParts (s : String) : Bool × ℕ × ℕ × ℕ :=
  let cs := s.data
  let ds := if cs.head? = some '-' then cs.tail else cs
  let intPart := ds.takeWhile (fun c => !(c = '.' : Bool))
  let fracPart := (ds.dropWhile (fun c => !(c = '.' : Bool))).tail
  (decide (cs.head? = some '-'), digitsToNat intPart, digitsToNat fracPart,
    fracPart.length)

/-- `new BigNumber(s)` for the well-formed decimal strings the code passes:
optional leading minus sign, digit run, optional `.` and fraction digits. -/
def bigNum (s : String) : ℚ :=
  let parts := bigNumParts s
  (if parts.1 then (-1 : ℚ) else 1) *
    ((parts.2.1 : ℚ) + (parts.2.2.1 : ℚ) / (10 : ℚ) ^ parts.2.2.2)

/-- The record returned by `calculateLimits`: `bntLimitWei` is the raw
`mintedWei` string, `tknLimitWei` a computed decimal. -/
structure LimitsResult where
  bntLimitWei : String
  tknLimitWei : ℚ
deriving DecidableEq

/-- `calculateLimits` from `pureHelpers.ts`. -/
def calculateLimits (poolLimitWei defaultLimitWei mintedWei
    tknReserveBalance bntReserveBalance : String) : LimitsResult :=
  let limitOrDefault :=
    bigNum (if poolLimitWei ≠ "0" then poolLimitWei else defaultLimitWei)
  let tknDelta := limitOrDefault - bigNum mintedWei
  let bntRate := bigNum tknReserveBalance / bigNum bntReserveBalance
  let tknLimitWei := bntRate * tknDelta
  let tknLimitWei := tknLimitWei * (bigNum "99.9" / bigNum "100")
  { bntLimitWei := mintedWei, tknLimitWei := tknLimitWei }

/-! ### `observables.ts`: `optimisticContract` and `distinctArrayItem` -/

/-- `distinctUntilChanged(eq)` on a finite emission sequence: the first
value passes, each later value is dropped when `eq` relates it to the last
emitted value. -/
def distinctUntilChangedAux {α : Type} (eq : α → α → Bool) :
    α → List α → List α
  | _, [] => []
  | last, x :: xs =>
      if eq last x then distinctUntilChangedAux eq last xs
      else x :: distinctUntilChangedAux eq x xs

/-- `distinctUntilChanged(eq)` over a whole emission sequence. -/
def distinctUntilChangedList {α : Type} (eq : α → α → Bool) :
    List α → List α
  | [] => []
  | x :: xs => x :: distinctUntilChangedAux eq x xs

/-- The observable effects of one run of the `optimisticContract` stage:
the values emitted downstream and the values written to `localStorage`. -/
structure CacheRun where
  emissions : List String
  writes : List String
deriving DecidableEq

/-- `optimisticContract`: `persisted` is `localStorage.getItem(key)`
(`none` models `null`, and the empty string is falsy in the `if`).  In the
cached branch the live stream is prefixed with the cached value, deduped
with `distinctUntilChanged(compareString)`, and the `tap` writes every
emission whose value differs (strict `===`) from the original cached value;
in the uncached branch every deduped emission is written. -/
def optimisticContract (persisted : Option String) (live : List String) :
    CacheRun :=
  match persisted with
  | some cachedData =>
      if cachedData == "" then
        let emissions := distinctUntilChangedList compareString live
        { emissions := emissions, writes := emissions }
      else
        let emissions :=
          distinctUntilChangedList compareString (cachedData :: live)
        { emissions := emissions
          writes := emissions.filter (fun data => !(cachedData == data)) }
  | none =>
      let emissions := distinctUntilChangedList compareString live
      { emissions := emissions, writes := emissions }

/-- `differenceWith(item, allEmissions, comparator)`: elements of the batch
matching nothing already seen. -/
def differenceWith {α : Type} (comp : α → α → Bool) (item seen : List α) :
    List α :=
  item.filter (fun x => !(seen.any (fun y => comp x y)))

/-- The `newData` produced by the `scan` of `distinctArrayItem` for each
incoming batch, threading the accumulated `allEmissions`. -/
def scanNewData {α : Type} (comp : α → α → Bool) (allSeen : List α) :
    List (List α) → List (List α)
  | [] => []
  | b :: bs =>
      let diff := differenceWith comp b allSeen
      diff :: scanNewData comp (allSeen ++ diff) bs

/-- The final `allEmissions` accumulator after all batches. -/
def scanAllSeen {α : Type} (comp : α → α → Bool) (allSeen : List α) :
    List (List α) → List α
  | [] => allSeen
  | b :: bs => scanAllSeen comp (allSeen ++ differenceWith comp b allSeen) bs

/-- `distinctArrayItem(initialValue, comparator)` applied to a finite batch
stream: `scan` then `filter(newData.length > 0)`, `pluck("newData")` and
`startWith(initialValue)`. -/
def distinctArrayItem {α : Type} (initialValue : List α)
    (comp : α → α → Bool) (batches : List (List α)) : List (List α) :=
  initialValue ::
    (scanNewData comp initialValue batches).filter (fun d => !d.isEmpty)

/-! ### Concrete inputs used by scenario evaluations and witnesses -/

/-- First raw position of the spec's grouping scenario (stake 100, fully
protected 110, pending reward 5); `apr`, `coverageDecPercent` and the stake
timestamp are given distinct values per member so that order-sensitivity of
the inherited fields is observable. -/
def c1pos1 : ViewProtectedLiquidity :=
  { id := "pos1"
    stake := { amount := 100, unixTime := 10, symbol := "BNT", poolId := "P1" }
    fullyProtected := some { amount := 110 }
    protectedAmount := some { amount := 0 }
    fees := some { amount := 0 }
    pendingReserveReward := 5
    apr := 1
    insuranceStart := 0
    coverageDecPercent := 7
    fullCoverage := 0
    bntTokenPrice := 1
    reserveTokenPrice := 1 }

/-- Second raw position of the spec's grouping scenario (stake 50, fully
protected 55, pending reward 2). -/
def c1pos2 : ViewProtectedLiquidity :=
  { id := "pos2"
    stake := { amount := 50, unixTime := 20, symbol := "BNT", poolId := "P1" }
    fullyProtected := some { amount := 55 }
    protectedAmount := some { amount := 0 }
    fees := some { amount := 0 }
    pendingReserveReward := 2
    apr := 2
    insuranceStart := 0
    coverageDecPercent := 9
    fullCoverage := 0
    bntTokenPrice := 1
    reserveTokenPrice := 1 }

/-- Position whose pool id contains a hyphen: pair `("a-b", "c")`. -/
def cexPosHyphenPool : ViewProtectedLiquidity :=
  { id := "q1"
    stake := { amount := 1, unixTime := 0, symbol := "c", poolId := "a-b" }
    fullyProtected := some { amount := 0 }
    protectedAmount := some { amount := 0 }
    fees := some { amount := 0 }
    pendingReserveReward := 0
    apr := 0
    insuranceStart := 0
    coverageDecPercent := 0
    fullCoverage := 0
    bntTokenPrice := 1
    reserveTokenPrice := 1 }

/-- Position with the colliding pair `("a", "b-c")`: its grouping key equals
that of `cexPosHyphenPool`. -/
def cexPosHyphenSymbol : ViewProtectedLiquidity :=
  { id := "q2"
    stake := { amount := 2, unixTime := 0, symbol := "b-c", poolId := "a" }
    fullyProtected := some { amount := 0 }
    protectedAmount := some { amount := 0 }
    fees := some { amount := 0 }
    pendingReserveReward := 0
    apr := 0
    insuranceStart := 0
    coverageDecPercent := 0
    fullCoverage := 0
    bntTokenPrice := 1
    reserveTokenPrice := 1 }

/-- A position with zero stake and zero fully-protected amount: the ROI
division then evaluates `0 / 0`. -/
def zeroStakePos : ViewProtectedLiquidity :=
  { id := "z1"
    stake := { amount := 0, unixTime := 0, symbol := "BNT", poolId := "Z" }
    fullyProtected := some { amount := 0 }
    protectedAmount := some { amount := 0 }
    fees := some { amount := 0 }
    pendingReserveReward := 0
    apr := 0
    insuranceStart := 0
    coverageDecPercent := 0
    fullCoverage := 0
    bntTokenPrice := 1
    reserveTokenPrice := 1 }

/-- A position with zero stake but positive fully-protected amount: the ROI
division then evaluates `3 / 0`. -/
def zeroStakePosInf : ViewProtectedLiquidity :=
  { id := "z2"
    stake := { amount := 0, unixTime := 0, symbol := "BNT", poolId := "ZI" }
    fullyProtected := some { amount := 3 }
    protectedAmount := some { amount := 0 }
    fees := some { amount := 0 }
    pendingReserveReward := 0
    apr := 0
    insuranceStart := 0
    coverageDecPercent := 0
    fullCoverage := 0
    bntTokenPrice := 1
    reserveTokenPrice := 1 }

/-! ## Theorems

### Association-list lemmas -/

theorem lookupG_insertG (m : List (String × ViewGroupedPositions)) (k : String)
    (g : ViewGroupedPositions) (k' : String) :
    lookupG (insertG m k g) k' = if k' = k then some g else lookupG m k' := by
  induction m with
  | nil =>
    simp only [insertG, lookupG]
    by_cases h : k = k'
    · rw [if_pos h, if_pos h.symm]
    · rw [if_neg h, if_neg (Ne.symm h)]
  | cons p rest ih =>
    obtain ⟨a, b⟩ := p
    simp only [insertG]
    by_cases ha : a = k
    · subst ha
      simp only [if_pos rfl, lookupG]
      by_cases h : a = k'
      · rw [if_pos h, if_pos h.symm]
      · rw [if_neg h, if_neg (Ne.symm h), if_neg h]
    · rw [if_neg ha]
      simp only [lookupG]
      by_cases h : a = k'
      · subst h
        rw [if_pos rfl, if_neg ha, if_pos rfl]
      · rw [if_neg h, ih]
        by_cases hk : k' = k
        · rw [if_pos hk, if_pos hk]
        · rw [if_neg hk, if_neg hk, if_neg h]

theorem membersOf_append (l₁ l₂ : List ViewProtectedLiquidity) (key : String) :
    membersOf (l₁ ++ l₂) key = membersOf l₁ key ++ membersOf l₂ key := by
  simp [membersOf, List.filter_append]

theorem membersOf_singleton (v : ViewProtectedLiquidity) (key : String) :
    membersOf [v] key = if keyOf v = key then [v] else [] := by
  by_cases h : keyOf v = key <;> simp [membersOf, h]

theorem membersOf_eq_nil_iff (l : List ViewProtectedLiquidity) (key : String) :
    membersOf l key = [] ↔ key ∉ l.map keyOf := by
  rw [membersOf, List.filter_eq_nil_iff]
  simp only [beq_iff_eq, List.mem_map, not_exists, not_and]

/-! ### `firstOccs` lemmas -/

theorem firstOccs_append_singleton (l : List ViewProtectedLiquidity)
    (v : ViewProtectedLiquidity) :
    firstOccs (l ++ [v]) =
      if keyOf v ∈ (firstOccs l).map keyOf then firstOccs l
      else firstOccs l ++ [v] := by
  simp [firstOccs, List.foldl_append]

theorem mem_keys_foldl_occs (l : List ViewProtectedLiquidity) :
    ∀ (fs : List ViewProtectedLiquidity) (k : String),
      (k ∈ ((l.foldl
        (fun fs v => if keyOf v ∈ fs.map keyOf then fs else fs ++ [v])
        fs).map keyOf)) ↔ k ∈ fs.map keyOf ∨ k ∈ l.map keyOf := by
  induction l with
  | nil => simp
  | cons v vs ih =>
    intro fs k
    simp only [List.foldl_cons]
    by_cases h : keyOf v ∈ fs.map keyOf
    · rw [if_pos h, ih]
      simp only [List.map_cons, List.mem_cons]
      constructor
      · rintro (hf | hv)
        · exact Or.inl hf
        · exact Or.inr (Or.inr hv)
      · rintro (hf | hev | hv)
        · exact Or.inl hf
        · exact Or.inl (hev ▸ h)
        · exact Or.inr hv
    · rw [if_neg h, ih]
      simp only [List.map_append, List.map_cons, List.map_nil,
        List.mem_append, List.mem_cons, List.mem_singleton,
        List.not_mem_nil, or_false]
      tauto

theorem mem_keys_firstOccs (l : List ViewProtectedLiquidity) (k : String) :
    k ∈ (firstOccs l).map keyOf ↔ k ∈ l.map keyOf := by
  simpa [firstOccs] using mem_keys_foldl_occs l [] k

theorem nodup_keys_foldl_occs (l : List ViewProtectedLiquidity) :
    ∀ (fs : List ViewProtectedLiquidity), (fs.map keyOf).Nodup →
      ((l.foldl
        (fun fs v => if keyOf v ∈ fs.map keyOf then fs else fs ++ [v])
        fs).map keyOf).Nodup := by
  induction l with
  | nil => intro fs h; simpa using h
  | cons v vs ih =>
    intro fs h
    simp only [List.foldl_cons]
    by_cases hv : keyOf v ∈ fs.map keyOf
    · rw [if_pos hv]; exact ih fs h
    · rw [if_neg hv]
      refine ih _ ?_
      simp [List.nodup_append, h, hv]

theorem nodup_keys_firstOccs (l : List ViewProtectedLiquidity) :
    ((firstOccs l).map keyOf).Nodup := by
  simpa [firstOccs] using nodup_keys_foldl_occs l [] (by simp)

theorem subset_foldl_occs (l : List ViewProtectedLiquidity) :
    ∀ (fs : List ViewProtectedLiquidity) (x : ViewProtectedLiquidity),
      x ∈ l.foldl
        (fun fs v => if keyOf v ∈ fs.map keyOf then fs else fs ++ [v]) fs →
      x ∈ fs ∨ x ∈ l := by
  induction l with
  | nil => intro fs x h; exact Or.inl (by simpa using h)
  | cons v vs ih =>
    intro fs x h
    simp only [List.foldl_cons] at h
    by_cases hv : keyOf v ∈ fs.map keyOf
    · rw [if_pos hv] at h
      rcases ih fs x h with h' | h'
      · exact Or.inl h'
      · exact Or.inr (by simp [h'])
    · rw [if_neg hv] at h
      rcases ih _ x h with h' | h'
      · rcases List.mem_append.mp h' with h'' | h''
        · exact Or.inl h''
        · exact Or.inr (by simp at h''; simp [h''])
      · exact Or.inr (by simp [h'])

theorem mem_of_mem_firstOccs (l : List ViewProtectedLiquidity)
    (v : ViewProtectedLiquidity) (h : v ∈ firstOccs l) : v ∈ l := by
  rcases subset_foldl_occs l [] v (by simpa [firstOccs] using h) with h' | h'
  · simp at h'
  · exact h'

theorem mem_firstOccs_head (l : List ViewProtectedLiquidity) :
    ∀ v ∈ firstOccs l, ∃ vs, membersOf l (keyOf v) = v :: vs := by
  induction l using List.reverseRecOn with
  | nil => simp [firstOccs, membersOf]
  | append_singleton l x ih =>
    intro v hv
    rw [firstOccs_append_singleton] at hv
    by_cases h : keyOf x ∈ (firstOccs l).map keyOf
    · rw [if_pos h] at hv
      obtain ⟨vs, hvs⟩ := ih v hv
      rw [membersOf_append, hvs, membersOf_singleton]
      by_cases hk : keyOf x = keyOf v
      · exact ⟨vs ++ [x], by simp [hk]⟩
      · exact ⟨vs, by simp [hk]⟩
    · rw [if_neg h] at hv
      rcases List.mem_append.mp hv with hv' | hv'
      · obtain ⟨vs, hvs⟩ := ih v hv'
        rw [membersOf_append, hvs, membersOf_singleton]
        by_cases hk : keyOf x = keyOf v
        · exact ⟨vs ++ [x], by simp [hk]⟩
        · exact ⟨vs, by simp [hk]⟩
      · have hx : v = x := by simpa using hv'
        subst hx
        have hnil : membersOf l (keyOf v) = [] := by
          rw [membersOf_eq_nil_iff]
          rw [mem_keys_firstOccs] at h
          exact h
        rw [membersOf_append, hnil, membersOf_singleton]
        exact ⟨[], by simp⟩

theorem mem_membersOf_of_mem_keys (l : List ViewProtectedLiquidity)
    (k : String) (h : k ∈ l.map keyOf) : membersOf l k ≠ [] := by
  intro hnil
  exact (membersOf_eq_nil_iff l k).mp hnil h

/-! ### The reducer invariant and the characterisation of
`groupPositionsArray` -/

theorem groupStep_inv (arr done : List ViewProtectedLiquidity)
    (acc : GroupAcc) (h : InvAt arr done acc) (val : ViewProtectedLiquidity) :
    InvAt arr (done ++ [val]) (groupStep arr acc val) := by
  obtain ⟨hids, hmap⟩ := h
  cases hm : membersOf done (keyOf val) with
  | nil =>
    have hlk : lookupG acc.groupsById (keyOf val) = none := by
      rw [hmap]; simp [groupFor, hm]
    have hnotin : keyOf val ∉ done.map keyOf := (membersOf_eq_nil_iff _ _).mp hm
    have hnotin' : keyOf val ∉ (firstOccs done).map keyOf := by
      rw [mem_keys_firstOccs]; exact hnotin
    constructor
    · simp only [groupStep, hlk]
      rw [firstOccs_append_singleton, if_neg hnotin', hids]
      simp
    · intro key
      simp only [groupStep, hlk]
      rw [lookupG_insertG]
      by_cases hk : key = keyOf val
      · subst hk
        rw [if_pos rfl]
        simp [groupFor, membersOf_append, hm, membersOf_singleton]
      · rw [if_neg hk, hmap key]
        have hne : keyOf val ≠ key := fun hh => hk hh.symm
        simp [groupFor, membersOf_append, membersOf_singleton, hne]
  | cons v vs =>
    have hlk : lookupG acc.groupsById (keyOf val) =
        some ((v :: vs).foldl (applyVal arr) (mkNewItem arr v)) := by
      rw [hmap]; simp [groupFor, hm]
    have hin : keyOf val ∈ done.map keyOf := by
      by_contra hc
      rw [← membersOf_eq_nil_iff] at hc
      rw [hm] at hc
      exact List.cons_ne_nil _ _ hc
    have hin' : keyOf val ∈ (firstOccs done).map keyOf := by
      rw [mem_keys_firstOccs]; exact hin
    constructor
    · simp only [groupStep, hlk]
      rw [firstOccs_append_singleton, if_pos hin', hids]
    · intro key
      simp only [groupStep, hlk]
      rw [lookupG_insertG]
      by_cases hk : key = keyOf val
      · subst hk
        rw [if_pos rfl]
        simp only [groupFor, membersOf_append, hm, membersOf_singleton,
          if_pos rfl]
        simp [List.foldl_append]
      · rw [if_neg hk, hmap key]
        have hne : keyOf val ≠ key := fun hh => hk hh.symm
        simp [groupFor, membersOf_append, membersOf_singleton, hne]

theorem foldl_groupStep_inv (arr : List ViewProtectedLiquidity) :
    ∀ (rest done : List ViewProtectedLiquidity) (acc : GroupAcc),
      InvAt arr done acc →
      InvAt arr (done ++ rest) (rest.foldl (groupStep arr) acc) := by
  intro rest
  induction rest with
  | nil => intro done acc h; simpa using h
  | cons v vs ih =>
    intro done acc h
    have h1 := groupStep_inv arr done acc h v
    have h2 := ih (done ++ [v]) (groupStep arr acc v) h1
    simpa using h2

theorem filterMap_eq_map_of_forall {α β : Type} {l : List α}
    {f : α → Option β} {g : α → β} (h : ∀ v ∈ l, f v = some (g v)) :
    l.filterMap f = l.map g := by
  induction l with
  | nil => rfl
  | cons x xs ih =>
    rw [List.filterMap_cons, h x (by simp), List.map_cons,
      ih (fun v hv => h v (by simp [hv]))]

/-- Closed form of `groupPositionsArray` on non-empty input: one finished
group per distinct key, in order of first appearance, each obtained by
creating the group from the key's first member and then running the two
trailing `if` statements for every member of that key in input order. -/
theorem groupPositionsArray_eq_buildGroups (arr : List ViewProtectedLiquidity)
    (h : arr ≠ []) :
    groupPositionsArray arr = some ((firstOccs arr).map (buildGroup arr)) := by
  have hInv : InvAt arr arr (arr.foldl (groupStep arr) ⟨[], []⟩) := by
    have hbase : InvAt arr [] (⟨[], []⟩ : GroupAcc) := by
      refine ⟨by simp [firstOccs], fun key => ?_⟩
      simp [lookupG, groupFor, membersOf]
    simpa using foldl_groupStep_inv arr arr [] ⟨[], []⟩ hbase
  obtain ⟨hids, hmap⟩ := hInv
  have hpoint : ∀ v ∈ firstOccs arr,
      lookupG (arr.foldl (groupStep arr) ⟨[], []⟩).groupsById (keyOf v) =
        some (buildGroup arr v) := by
    intro v hv
    obtain ⟨vs, hvs⟩ := mem_firstOccs_head arr v hv
    rw [hmap, groupFor, hvs]
    simp [buildGroup, hvs]
  cases arr with
  | nil => exact absurd rfl h
  | cons a l =>
    simp only [groupPositionsArray]
    rw [hids, List.filterMap_map]
    congr 1
    exact filterMap_eq_map_of_forall (fun v hv => hpoint v hv)

/-! ### Field preservation through the trailing `if` updates -/

theorem applyVal_preserved (arr : List ViewProtectedLiquidity)
    (it : ViewGroupedPositions) (val : ViewProtectedLiquidity) :
    (applyVal arr it val).id = it.id ∧
    (applyVal arr it val).positionId = it.positionId ∧
    (applyVal arr it val).poolId = it.poolId ∧
    (applyVal arr it val).symbol = it.symbol ∧
    (applyVal arr it val).apr = it.apr ∧
    (applyVal arr it val).pendingReserveReward = it.pendingReserveReward ∧
    (applyVal arr it val).stake.amount = it.stake.amount ∧
    (applyVal arr it val).stake.usdValue = it.stake.usdValue ∧
    (applyVal arr it val).fullyProtected = it.fullyProtected ∧
    (applyVal arr it val).protectedAmount = it.protectedAmount ∧
    (applyVal arr it val).roi = it.roi ∧
    (applyVal arr it val).fees = it.fees := by
  simp only [applyVal]
  split <;> split <;> simp

theorem foldl_applyVal_preserved {β : Type} (arr : List ViewProtectedLiquidity)
    (f : ViewGroupedPositions → β)
    (hf : ∀ it val, f (applyVal arr it val) = f it) :
    ∀ (ms : List ViewProtectedLiquidity) (it : ViewGroupedPositions),
      f (ms.foldl (applyVal arr) it) = f it := by
  intro ms
  induction ms with
  | nil => intro it; rfl
  | cons x xs ih => intro it; rw [List.foldl_cons, ih, hf]

theorem buildGroup_id (arr : List ViewProtectedLiquidity)
    (v : ViewProtectedLiquidity) : (buildGroup arr v).id = keyOf v := by
  rw [buildGroup, foldl_applyVal_preserved arr (fun g => g.id)
    (fun it val => (applyVal_preserved arr it val).1)]
  rfl

theorem buildGroup_positionId (arr : List ViewProtectedLiquidity)
    (v : ViewProtectedLiquidity) : (buildGroup arr v).positionId = v.id := by
  rw [buildGroup, foldl_applyVal_preserved arr (fun g => g.positionId)
    (fun it val => (applyVal_preserved arr it val).2.1)]
  rfl

theorem buildGroup_poolId (arr : List ViewProtectedLiquidity)
    (v : ViewProtectedLiquidity) : (buildGroup arr v).poolId = v.stake.poolId := by
  rw [buildGroup, foldl_applyVal_preserved arr (fun g => g.poolId)
    (fun it val => (applyVal_preserved arr it val).2.2.1)]
  rfl

theorem buildGroup_symbol (arr : List ViewProtectedLiquidity)
    (v : ViewProtectedLiquidity) : (buildGroup arr v).symbol = v.stake.symbol := by
  rw [buildGroup, foldl_applyVal_preserved arr (fun g => g.symbol)
    (fun it val => (applyVal_preserved arr it val).2.2.2.1)]
  rfl

theorem buildGroup_apr (arr : List ViewProtectedLiquidity)
    (v : ViewProtectedLiquidity) : (buildGroup arr v).apr = v.apr := by
  rw [buildGroup, foldl_applyVal_preserved arr (fun g => g.apr)
    (fun it val => (applyVal_preserved arr it val).2.2.2.2.1)]
  rfl

theorem buildGroup_pendingReserveReward (arr : List ViewProtectedLiquidity)
    (v : ViewProtectedLiquidity) :
    (buildGroup arr v).pendingReserveReward = v.pendingReserveReward := by
  rw [buildGroup, foldl_applyVal_preserved arr (fun g => g.pendingReserveReward)
    (fun it val => (applyVal_preserved arr it val).2.2.2.2.2.1)]
  rfl

theorem buildGroup_stake_amount (arr : List ViewProtectedLiquidity)
    (v : ViewProtectedLiquidity) :
    (buildGroup arr v).stake.amount =
      sumStakeAmount (filteredFor arr v.stake.poolId v.stake.symbol) := by
  rw [buildGroup, foldl_applyVal_preserved arr (fun g => g.stake.amount)
    (fun it val => (applyVal_preserved arr it val).2.2.2.2.2.2.1)]
  rfl

theorem buildGroup_fullyProtected_amount (arr : List ViewProtectedLiquidity)
    (v : ViewProtectedLiquidity) :
    (buildGroup arr v).fullyProtected.amount =
      sumFullyProtectedWithReward arr v := by
  have hfp : (buildGroup arr v).fullyProtected = (mkNewItem arr v).fullyProtected := by
    rw [buildGroup, foldl_applyVal_preserved arr (fun g => g.fullyProtected)
      (fun it val => (applyVal_preserved arr it val).2.2.2.2.2.2.2.2.1)]
  rw [hfp]
  rfl

theorem buildGroup_roi (arr : List ViewProtectedLiquidity)
    (v : ViewProtectedLiquidity) :
    (buildGroup arr v).roi =
      jsDiv
        (sumFullyProtectedWithReward arr v -
          sumStakeAmount (filteredFor arr v.stake.poolId v.stake.symbol))
        (sumStakeAmount (filteredFor arr v.stake.poolId v.stake.symbol)) := by
  rw [buildGroup, foldl_applyVal_preserved arr (fun g => g.roi)
    (fun it val => (applyVal_preserved arr it val).2.2.2.2.2.2.2.2.2.2.1)]
  rfl

theorem buildGroup_fees (arr : List ViewProtectedLiquidity)
    (v : ViewProtectedLiquidity) :
    (buildGroup arr v).fees =
      sumFees (filteredFor arr v.stake.poolId v.stake.symbol) := by
  rw [buildGroup, foldl_applyVal_preserved arr (fun g => g.fees)
    (fun it val => (applyVal_preserved arr it val).2.2.2.2.2.2.2.2.2.2.2)]
  rfl

/-! ### `insuranceStart` is the minimum over the processed members -/

theorem applyVal_insuranceStart (arr : List ViewProtectedLiquidity)
    (it : ViewGroupedPositions) (val : ViewProtectedLiquidity) :
    (applyVal arr it val).insuranceStart =
      min it.insuranceStart val.insuranceStart := by
  simp only [applyVal]
  split <;> split <;> simp_all <;> omega

theorem foldl_applyVal_insuranceStart (arr : List ViewProtectedLiquidity) :
    ∀ (ms : List ViewProtectedLiquidity) (it : ViewGroupedPositions),
      (ms.foldl (applyVal arr) it).insuranceStart =
        ms.foldl (fun a x => min a x.insuranceStart) it.insuranceStart := by
  intro ms
  induction ms with
  | nil => intro it; rfl
  | cons x xs ih =>
    intro it
    rw [List.foldl_cons, List.foldl_cons, ih, applyVal_insuranceStart]

theorem foldl_min_le_init (l : List ℤ) : ∀ a : ℤ, l.foldl min a ≤ a := by
  induction l with
  | nil => intro a; simp
  | cons x xs ih =>
    intro a
    rw [List.foldl_cons]
    exact le_trans (ih (min a x)) (min_le_left a x)

theorem foldl_min_le_mem (l : List ℤ) :
    ∀ (a b : ℤ), b ∈ l → l.foldl min a ≤ b := by
  induction l with
  | nil => intro a b h; simp at h
  | cons x xs ih =>
    intro a b h
    rw [List.foldl_cons]
    rcases List.mem_cons.mp h with rfl | h'
    · exact le_trans (foldl_min_le_init xs (min a b)) (min_le_right a b)
    · exact ih (min a x) b h'

theorem foldl_min_init_or_mem (l : List ℤ) :
    ∀ a : ℤ, l.foldl min a = a ∨ l.foldl min a ∈ l := by
  induction l with
  | nil => intro a; exact Or.inl rfl
  | cons x xs ih =>
    intro a
    rw [List.foldl_cons]
    rcases ih (min a x) with h | h
    · rcases le_total a x with hax | hxa
      · rw [min_eq_left hax] at h ⊢
        exact Or.inl h
      · rw [min_eq_right hxa] at h ⊢
        exact Or.inr (by simp [h])
    · exact Or.inr (by simp [h])

theorem foldl_min_perm_eq (l l' : List ℤ) (a a' : ℤ) (hp : l.Perm l')
    (ha : a ∈ l) (ha' : a' ∈ l') : l.foldl min a = l'.foldl min a' := by
  apply le_antisymm
  · rcases foldl_min_init_or_mem l' a' with h | h
    · rw [h]
      exact foldl_min_le_mem l a a' (hp.mem_iff.mpr ha')
    · exact foldl_min_le_mem l a _ (hp.mem_iff.mpr h)
  · rcases foldl_min_init_or_mem l a with h | h
    · rw [h]
      exact foldl_min_le_mem l' a' a (hp.mem_iff.mp ha)
    · exact foldl_min_le_mem l' a' _ (hp.mem_iff.mp h)

/-! ### `collapsedData` lemmas -/

theorem applyVal_collapsedData_push (arr : List ViewProtectedLiquidity)
    (it : ViewGroupedPositions) (val : ViewProtectedLiquidity)
    (h : 1 < (filteredFor arr val.stake.poolId val.stake.symbol).length) :
    (applyVal arr it val).collapsedData =
      sortCollapsed (it.collapsedData ++ [val]) := by
  simp only [applyVal]
  rw [if_pos h]
  split <;> simp

theorem applyVal_collapsedData_nopush (arr : List ViewProtectedLiquidity)
    (it : ViewGroupedPositions) (val : ViewProtectedLiquidity)
    (h : ¬ 1 < (filteredFor arr val.stake.poolId val.stake.symbol).length) :
    (applyVal arr it val).collapsedData = it.collapsedData := by
  simp only [applyVal]
  rw [if_neg h]
  split <;> simp

theorem foldl_applyVal_collapsed_perm (arr : List ViewProtectedLiquidity) :
    ∀ (ms : List ViewProtectedLiquidity),
      (∀ x ∈ ms, 1 < (filteredFor arr x.stake.poolId x.stake.symbol).length) →
      ∀ it, ((ms.foldl (applyVal arr) it).collapsedData).Perm
        (it.collapsedData ++ ms) := by
  intro ms
  induction ms with
  | nil => intro _ it; simp
  | cons x xs ih =>
    intro hall it
    rw [List.foldl_cons]
    have h1 := ih (fun y hy => hall y (by simp [hy])) (applyVal arr it x)
    rw [applyVal_collapsedData_push arr it x (hall x (by simp))] at h1
    refine h1.trans ?_
    have hs : (sortCollapsed (it.collapsedData ++ [x])).Perm
        (it.collapsedData ++ [x]) := List.perm_insertionSort timeDesc _
    have h2 := hs.append_right xs
    refine h2.trans ?_
    rw [List.append_assoc]
    simp

theorem foldl_applyVal_collapsed_eq (arr : List ViewProtectedLiquidity) :
    ∀ (ms : List ViewProtectedLiquidity),
      (∀ x ∈ ms, ¬ 1 < (filteredFor arr x.stake.poolId x.stake.symbol).length) →
      ∀ it, (ms.foldl (applyVal arr) it).collapsedData = it.collapsedData := by
  intro ms
  induction ms with
  | nil => intro _ it; rfl
  | cons x xs ih =>
    intro hall it
    rw [List.foldl_cons]
    rw [ih (fun y hy => hall y (by simp [hy])) (applyVal arr it x)]
    exact applyVal_collapsedData_nopush arr it x (hall x (by simp))

theorem foldl_applyVal_collapsed_sorted (arr : List ViewProtectedLiquidity) :
    ∀ (ms : List ViewProtectedLiquidity) (it : ViewGroupedPositions),
      List.Sorted timeDesc it.collapsedData →
      List.Sorted timeDesc ((ms.foldl (applyVal arr) it).collapsedData) := by
  intro ms
  induction ms with
  | nil => intro it h; exact h
  | cons x xs ih =>
    intro it h
    rw [List.foldl_cons]
    apply ih
    by_cases hp : 1 < (filteredFor arr x.stake.poolId x.stake.symbol).length
    · rw [applyVal_collapsedData_push arr it x hp]
      exact List.sorted_insertionSort timeDesc _
    · rw [applyVal_collapsedData_nopush arr it x hp]
      exact h

theorem buildGroup_collapsed_sorted (arr : List ViewProtectedLiquidity)
    (v : ViewProtectedLiquidity) :
    List.Sorted timeDesc (buildGroup arr v).collapsedData := by
  rw [buildGroup]
  exact foldl_applyVal_collapsed_sorted arr _ (mkNewItem arr v) (by simp [mkNewItem])

/-! ### Key-injectivity consequences -/

theorem filteredFor_eq_membersOf (arr : List ViewProtectedLiquidity)
    (hinj : KeyInjOn arr) (val : ViewProtectedLiquidity) (hv : val ∈ arr) :
    filteredFor arr val.stake.poolId val.stake.symbol =
      membersOf arr (keyOf val) := by
  rw [filteredFor, membersOf]
  apply List.filter_congr
  intro x hx
  by_cases h : keyOf x = keyOf val
  · have hps := hinj x hx val hv h
    simp [hps.1, hps.2, h]
  · have hne : ¬(x.stake.poolId = val.stake.poolId ∧
        x.stake.symbol = val.stake.symbol) := by
      intro hc
      exact h (by rw [keyOf, keyOf, hc.1, hc.2])
    have : (x.stake.poolId == val.stake.poolId &&
        x.stake.symbol == val.stake.symbol) = false := by
      rw [Bool.and_eq_false_iff]
      by_cases h1 : x.stake.poolId = val.stake.poolId
      · exact Or.inr (beq_eq_false_iff_ne.mpr (fun h2 => hne ⟨h1, h2⟩))
      · exact Or.inl (beq_eq_false_iff_ne.mpr h1)
    rw [this, beq_eq_false_iff_ne.mpr h]

theorem mem_membersOf_self (arr : List ViewProtectedLiquidity)
    (v : ViewProtectedLiquidity) (hv : v ∈ arr) : v ∈ membersOf arr (keyOf v) := by
  rw [membersOf]
  simp [hv]

/-! ### Generic list helpers -/

theorem perm_of_nodup_mem_iff {l l' : List String} (h : l.Nodup)
    (h' : l'.Nodup) (hm : ∀ k, k ∈ l ↔ k ∈ l') : l.Perm l' := by
  rw [List.perm_iff_count]
  intro k
  by_cases hk : k ∈ l
  · rw [List.count_eq_one_of_mem h hk,
      List.count_eq_one_of_mem h' ((hm k).mp hk)]
  · rw [List.count_eq_zero_of_not_mem hk,
      List.count_eq_zero_of_not_mem (fun hc => hk ((hm k).mpr hc))]

theorem length_filter_le_one {α : Type} {l : List α} {q : α → Bool}
    (hnd : l.Nodup)
    (huniq : ∀ x ∈ l, ∀ y ∈ l, q x = true → q y = true → x = y) :
    (l.filter q).length ≤ 1 := by
  induction l with
  | nil => simp
  | cons x xs ih =>
    rw [List.filter_cons]
    by_cases hq : q x = true
    · rw [if_pos hq]
      have hnil : xs.filter q = [] := by
        rw [List.filter_eq_nil_iff]
        intro y hy hqy
        have hxy := huniq x (by simp) y (by simp [hy]) hq hqy
        have hx : x ∉ xs := (List.nodup_cons.mp hnd).1
        exact hx (hxy ▸ hy)
      simp [hnil]
    · rw [if_neg hq]
      exact ih (List.nodup_cons.mp hnd).2
        (fun a ha b hb => huniq a (by simp [ha]) b (by simp [hb]))

/-! ### Lemmas about the cache stage's `distinctUntilChanged` -/

theorem chain_distinctUntilChangedAux {α : Type} (eq : α → α → Bool) :
    ∀ (l : List α) (last : α),
      List.Chain (fun a b => eq a b = false) last
        (distinctUntilChangedAux eq last l) := by
  intro l
  induction l with
  | nil => intro last; exact List.Chain.nil
  | cons x xs ih =>
    intro last
    rw [distinctUntilChangedAux]
    by_cases h : eq last x = true
    · rw [if_pos h]
      exact ih last
    · rw [if_neg h]
      exact List.Chain.cons (by rwa [← Bool.not_eq_true]) (ih x)

theorem chain_distinctUntilChangedList {α : Type} (eq : α → α → Bool)
    (l : List α) :
    List.Chain' (fun a b => eq a b = false) (distinctUntilChangedList eq l) := by
  cases l with
  | nil => simp [distinctUntilChangedList]
  | cons x xs => exact chain_distinctUntilChangedAux eq xs x

/-! ### Lemmas about the incremental accumulator -/

theorem scanAllSeen_eq_append_join {α : Type} (comp : α → α → Bool) :
    ∀ (batches : List (List α)) (seen : List α),
      scanAllSeen comp seen batches =
        seen ++ (scanNewData comp seen batches).flatten := by
  intro batches
  induction batches with
  | nil => intro seen; simp [scanAllSeen, scanNewData]
  | cons b bs ih =>
    intro seen
    rw [scanAllSeen, scanNewData, ih]
    simp

theorem scanNewData_new {α : Type} (comp : α → α → Bool) :
    ∀ (batches : List (List α)) (seen : List α) (d : List α),
      d ∈ scanNewData comp seen batches →
      ∀ x ∈ d, (seen.any (fun y => comp x y)) = false := by
  intro batches
  induction batches with
  | nil => intro seen d hd; simp [scanNewData] at hd
  | cons b bs ih =>
    intro seen d hd x hx
    rw [scanNewData] at hd
    rcases List.mem_cons.mp hd with rfl | hd'
    · rw [differenceWith] at hx
      have := (List.mem_filter.mp hx).2
      rwa [Bool.not_eq_true'] at this
    · have hall := ih _ d hd' x hx
      rw [List.any_append, Bool.or_eq_false_iff] at hall
      exact hall.1

theorem scanNewData_pairwise {α : Type} (comp : α → α → Bool) :
    ∀ (batches : List (List α)) (seen : List α),
      List.Pairwise
        (fun d₁ d₂ => ∀ x ∈ d₂, ∀ y ∈ d₁, comp x y = false)
        (scanNewData comp seen batches) := by
  intro batches
  induction batches with
  | nil => intro seen; simp [scanNewData]
  | cons b bs ih =>
    intro seen
    rw [scanNewData]
    refine List.Pairwise.cons ?_ (ih _)
    intro d hd x hx y hy
    have hall := scanNewData_new comp bs _ d hd x hx
    rw [List.any_append, Bool.or_eq_false_iff] at hall
    have := hall.2
    rw [List.any_eq_false] at this
    simpa using this y hy

/-! ### Helper facts for the price-deviation guard -/

theorem jsDiv_num (a b : ℚ) (hb : b ≠ 0) : jsDiv a b = JsNum.num (a / b) := by
  rw [jsDiv, if_neg hb]

theorem priceDeviationTooHigh_eq_false_iff (a p s d : ℚ) (hp : p ≠ 0)
    (hs : s ≠ 0) (hd : d ≠ 1000000) :
    calculatePriceDeviationTooHigh a p s d = false ↔
      ((1000000 - d) / 1000000 < a / (p / s) ∧
        a / (p / s) < 1000000 / (1000000 - d)) := by
  have hps : p / s ≠ 0 := div_ne_zero hp hs
  have hbase : (1000000 : ℚ) - d ≠ 0 := sub_ne_zero.mpr (Ne.symm hd)
  simp only [calculatePriceDeviationTooHigh, jsDiv_num p s hs, dividedBy,
    jsDiv_num a (p / s) hps, jsDiv_num (1000000 - d) 1000000 (by norm_num),
    jsDiv_num 1000000 (1000000 - d) hbase, isGreaterThan,
    Bool.not_eq_false', Bool.and_eq_true, decide_eq_true_eq]

theorem priceDeviationTooHigh_boundary (a p s : ℚ) (hp : p ≠ 0)
    (hs : s ≠ 0) :
    calculatePriceDeviationTooHigh a p s 1000000 = false ↔
      0 < a / (p / s) := by
  have hps : p / s ≠ 0 := div_ne_zero hp hs
  have hbase : (1000000 : ℚ) - 1000000 = 0 := by norm_num
  simp only [calculatePriceDeviationTooHigh, hbase, jsDiv_num p s hs,
    dividedBy, jsDiv_num a (p / s) hps,
    show jsDiv (0 : ℚ) 1000000 = JsNum.num 0 from by norm_num [jsDiv],
    show jsDiv (1000000 : ℚ) 0 = JsNum.posInf from by norm_num [jsDiv],
    isGreaterThan, Bool.not_eq_false', Bool.and_true, decide_eq_true_eq]

/-! ## Claim theorems -/

/-- Claim C1, corrected: on the spec scenario the single group has
`stake.amount = 150` and `collapsedData.length = 2`, but
`fullyProtected.amount = 170`, not `172`: only the *first* member's
`pendingReserveReward` (5) is added to the summed fully-protected amounts
(110 + 55); the second member's reward (2) is ignored.  In general, for a
group whose symbol is `BNT` the reward of the group's first-listed member is
added directly to the summed `fullyProtected` amount. -/
theorem groupPositionsArray_bnt_reward_first_member :
    (((groupPositionsArray [c1pos1, c1pos2]).map (fun out => out.map (fun g =>
        (g.stake.amount, g.fullyProtected.amount, g.collapsedData.length)))) =
      some [((150 : ℚ), (170 : ℚ), 2)]) ∧
    (∀ arr : List ViewProtectedLiquidity, arr ≠ [] →
      ((groupPositionsArray arr).getD [] =
        (firstOccs arr).map (buildGroup arr)) ∧
      ∀ v ∈ firstOccs arr,
        (buildGroup arr v).pendingReserveReward = v.pendingReserveReward ∧
        (buildGroup arr v).fullyProtected.amount =
          sumFullyProtectedWithReward arr v ∧
        (compareString v.stake.symbol "BNT" = true →
          (buildGroup arr v).fullyProtected.amount =
            v.pendingReserveReward +
              sumFullyProtected
                (filteredFor arr v.stake.poolId v.stake.symbol))) := by
  constructor
  · norm_num [groupPositionsArray, groupStep, keyOf, lookupG, insertG,
      applyVal, mkNewItem, filteredFor, sumStakeAmount, sumFullyProtected,
      sumFullyProtectedWithReward, sumProtectedWithReward, sumProtectedAmount,
      sumFees, compareString, c1pos1, c1pos2, sortCollapsed, jsDiv,
      List.insertionSort, List.orderedInsert, timeDesc, List.filterMap_cons,
      List.filterMap_nil]
  · intro arr hne
    refine ⟨by rw [groupPositionsArray_eq_buildGroups arr hne]; rfl, ?_⟩
    intro v hv
    refine ⟨buildGroup_pendingReserveReward arr v,
      buildGroup_fullyProtected_amount arr v, ?_⟩
    intro hbnt
    rw [buildGroup_fullyProtected_amount arr v, sumFullyProtectedWithReward,
      if_pos hbnt]

/-- Claim C1 counterexample: on the spec's own scenario the reported
`fullyProtected.amount` is 170, not the claimed 172 = 110 + 55 + 5 + 2. -/
theorem groupPositionsArray_c1_scenario_cex :
    (((groupPositionsArray [c1pos1, c1pos2]).map (fun out => out.map (fun g =>
        g.fullyProtected.amount))) = some [(170 : ℚ)]) ∧ (170 : ℚ) ≠ 172 := by
  constructor
  · norm_num [groupPositionsArray, groupStep, keyOf, lookupG, insertG,
      applyVal, mkNewItem, filteredFor, sumStakeAmount, sumFullyProtected,
      sumFullyProtectedWithReward, sumProtectedWithReward, sumProtectedAmount,
      sumFees, compareString, c1pos1, c1pos2, sortCollapsed, jsDiv,
      List.insertionSort, List.orderedInsert, timeDesc, List.filterMap_cons,
      List.filterMap_nil]
  · norm_num

/-- Claim C1 witness: the general description instantiated on the concrete
scenario input. -/
theorem groupPositionsArray_bnt_reward_first_member_witness :
    (groupPositionsArray [c1pos1, c1pos2]).getD [] =
      (firstOccs [c1pos1, c1pos2]).map (buildGroup [c1pos1, c1pos2]) :=
  (groupPositionsArray_bnt_reward_first_member.2 [c1pos1, c1pos2]
    (by simp)).1

/-- Claim C4, corrected: every reported group's `roi` is the unguarded
JavaScript division `(sumFullyProtectedWithReward − sumStake) / sumStake`;
for nonzero summed stake this is the finite ratio, but for a zero-stake
group the code performs the division anyway and yields `NaN` or `±Infinity`
rather than detecting the edge case and reporting a sentinel. -/
theorem groupPositionsArray_roi_unguarded (arr : List ViewProtectedLiquidity)
    (hne : arr ≠ []) :
    (∀ g ∈ (groupPositionsArray arr).getD [], ∃ v, v ∈ arr ∧
      g.roi = jsDiv
        (sumFullyProtectedWithReward arr v -
          sumStakeAmount (filteredFor arr v.stake.poolId v.stake.symbol))
        (sumStakeAmount (filteredFor arr v.stake.poolId v.stake.symbol))) ∧
    (∀ a b : ℚ, b ≠ 0 → jsDiv a b = JsNum.num (a / b)) ∧
    (∀ a : ℚ, jsDiv a 0 = JsNum.nan ∨ jsDiv a 0 = JsNum.posInf ∨
      jsDiv a 0 = JsNum.negInf) := by
  refine ⟨?_, ?_, ?_⟩
  · intro g hg
    rw [groupPositionsArray_eq_buildGroups arr hne] at hg
    simp only [Option.getD_some] at hg
    rw [List.mem_map] at hg
    obtain ⟨v, hv, rfl⟩ := hg
    exact ⟨v, mem_of_mem_firstOccs arr v hv, buildGroup_roi arr v⟩
  · intro a b hb
    rw [jsDiv, if_neg hb]
  · intro a
    rw [jsDiv, if_pos rfl]
    by_cases h : a = 0
    · rw [if_pos h]
      exact Or.inl rfl
    · rw [if_neg h]
      by_cases h2 : 0 < a
      · rw [if_pos h2]
        exact Or.inr (Or.inl rfl)
      · rw [if_neg h2]
        exact Or.inr (Or.inr rfl)

/-- Claim C4 counterexample: a zero-stake group silently gets `roi = NaN`
(zero fully-protected sum) or `roi = Infinity` (positive fully-protected
sum); no sentinel or error value is reported. -/
theorem groupPositionsArray_roi_nan_cex :
    ((groupPositionsArray [zeroStakePos]).map (fun out =>
        out.map (fun g => g.roi))) = some [JsNum.nan] ∧
    ((groupPositionsArray [zeroStakePosInf]).map (fun out =>
        out.map (fun g => g.roi))) = some [JsNum.posInf] := by
  constructor <;>
  · norm_num [groupPositionsArray, groupStep, keyOf, lookupG, insertG,
      applyVal, mkNewItem, filteredFor, sumStakeAmount, sumFullyProtected,
      sumFullyProtectedWithReward, sumProtectedWithReward, sumProtectedAmount,
      sumFees, compareString, zeroStakePos, zeroStakePosInf, sortCollapsed,
      jsDiv, List.insertionSort, List.orderedInsert, timeDesc,
      List.filterMap_cons, List.filterMap_nil]

/-- Claim C4 witness. -/
theorem groupPositionsArray_roi_unguarded_witness :
    jsDiv (1 : ℚ) 2 = JsNum.num (1 / 2) :=
  (groupPositionsArray_roi_unguarded [zeroStakePos] (by simp)).2.1 1 2
    (by norm_num)

/-- Claim C5, corrected: with a persisted value the cache stage emits the
persisted value first and re-emits only values that differ from the last
emitted one, but the persistence write is keyed to the *originally persisted*
value, not to the last emitted one: every emission differing from the
original cached value is written, so a change back to the cached value is
emitted yet never persisted.  The spec's concrete scenario does hold. -/
theorem optimisticContract_cached_behaviour :
    (optimisticContract (some "0xOLD") ["0xOLD", "0xNEW"] =
      { emissions := ["0xOLD", "0xNEW"], writes := ["0xNEW"] }) ∧
    (∀ (cached : String) (live : List String), cached ≠ "" →
      ((optimisticContract (some cached) live).emissions.head? = some cached ∧
       List.Chain' (fun a b => compareString a b = false)
         (optimisticContract (some cached) live).emissions ∧
       cached ∉ (optimisticContract (some cached) live).writes ∧
       (optimisticContract (some cached) live).writes =
         (optimisticContract (some cached) live).emissions.filter
           (fun data => !(cached == data)))) := by
  constructor
  · decide
  · intro cached live h
    have hbeq : (cached == "") = false := beq_eq_false_iff_ne.mpr h
    simp only [optimisticContract, hbeq, Bool.false_eq_true, if_false]
    refine ⟨rfl, chain_distinctUntilChangedList compareString _, ?_, trivial⟩
    intro hc
    have := (List.mem_filter.mp hc).2
    simp at this

/-- Claim C5 counterexample: persisted `"0xOLD"` with live stream
`["0xNEW", "0xOLD"]` produces two observed changes (to `"0xNEW"`, back to
`"0xOLD"`) but only one persistence write, refuting "exactly one write per
observed change". -/
theorem optimisticContract_write_per_change_cex :
    (optimisticContract (some "0xOLD") ["0xNEW", "0xOLD"]).emissions =
      ["0xOLD", "0xNEW", "0xOLD"] ∧
    (optimisticContract (some "0xOLD") ["0xNEW", "0xOLD"]).writes =
      ["0xNEW"] ∧
    (optimisticContract (some "0xOLD") ["0xNEW", "0xOLD"]).writes.length ≠
      2 := by
  decide

/-- Claim C5 witness. -/
theorem optimisticContract_cached_behaviour_witness :
    (optimisticContract (some "0xOLD") ["0xNEW"]).emissions.head? =
      some "0xOLD" :=
  (optimisticContract_cached_behaviour.2 "0xOLD" ["0xNEW"] (by decide)).1

/-- Claim C6, confirmed: the accumulator seeded with `initialValue` first
emits the seed, then for each batch exactly the elements not already seen
(under the supplied equality), appending them to the accumulated set and
suppressing batches with no new elements: fed `[1,2]` then `[1,2,3]` it
emits the seed `[]`, then `[1,2]`, then only `[3]`; the accumulated set is
always the seed followed by all emitted deltas, and every element of a
delta matches nothing previously seen. -/
theorem distinctArrayItem_behaviour :
    (distinctArrayItem ([] : List ℕ) (fun a b => a == b) [[1, 2], [1, 2, 3]] =
      [[], [1, 2], [3]]) ∧
    (∀ {α : Type} (comp : α → α → Bool) (initialValue : List α)
        (batches : List (List α)),
      scanAllSeen comp initialValue batches =
        initialValue ++ (scanNewData comp initialValue batches).flatten) ∧
    (∀ {α : Type} (comp : α → α → Bool) (initialValue : List α)
        (batches : List (List α)) (d : List α),
      d ∈ scanNewData comp initialValue batches →
      ∀ x ∈ d, (initialValue.any (fun y => comp x y)) = false) ∧
    (∀ {α : Type} (comp : α → α → Bool) (initialValue : List α)
        (batches : List (List α)),
      List.Pairwise (fun d₁ d₂ => ∀ x ∈ d₂, ∀ y ∈ d₁, comp x y = false)
        (scanNewData comp initialValue batches)) := by
  refine ⟨by decide, ?_, ?_, ?_⟩
  · intro α comp initialValue batches
    exact scanAllSeen_eq_append_join comp batches initialValue
  · intro α comp initialValue batches d hd x hx
    exact scanNewData_new comp batches initialValue d hd x hx
  · intro α comp initialValue batches
    exact scanNewData_pairwise comp batches initialValue

/-- Claim C6 witness. -/
theorem distinctArrayItem_behaviour_witness :
    scanAllSeen (fun a b : ℕ => a == b) [] [[1, 2], [1, 2, 3]] =
      [] ++ (scanNewData (fun a b : ℕ => a == b) [] [[1, 2], [1, 2, 3]]).flatten :=
  distinctArrayItem_behaviour.2.1 (fun a b : ℕ => a == b) [] [[1, 2], [1, 2, 3]]

/-- Claim C7, corrected: whenever both reserve balances are nonzero and
`d ≠ 10⁶` (so every BigNumber division is finite), the guard returns
`false` exactly when `threshold = averageRate / spotRate` lies strictly
inside the open interval `((10⁶ − d)/10⁶, 10⁶/(10⁶ − d))`; at `d = 10⁶` the
upper bound is `Infinity` and the guard returns `false` exactly when the
threshold is positive.  The identity case `averageRate = spotRate` yields
`false` provided both reserve balances are nonzero (so the spot rate is a
nonzero ratio) and `0 < d ≤ 10⁶`; with a zero spot rate (the threshold is
then `NaN` or infinite) or `d > 10⁶` (negative upper bound) the guard
returns `true` even on identical rates. -/
theorem calculatePriceDeviationTooHigh_characterisation :
    (∀ a p s d : ℚ, p ≠ 0 → s ≠ 0 → d ≠ 1000000 →
      (calculatePriceDeviationTooHigh a p s d = false ↔
        ((1000000 - d) / 1000000 < a / (p / s) ∧
          a / (p / s) < 1000000 / (1000000 - d)))) ∧
    (∀ a p s : ℚ, p ≠ 0 → s ≠ 0 →
      (calculatePriceDeviationTooHigh a p s 1000000 = false ↔
        0 < a / (p / s))) ∧
    (∀ a p s d : ℚ, p ≠ 0 → s ≠ 0 → a = p / s → 0 < d → d ≤ 1000000 →
      calculatePriceDeviationTooHigh a p s d = false) := by
  refine ⟨fun a p s d hp hs hd =>
      priceDeviationTooHigh_eq_false_iff a p s d hp hs hd,
    fun a p s hp hs => priceDeviationTooHigh_boundary a p s hp hs, ?_⟩
  intro a p s d hp hs ha hd hdle
  have hps : p / s ≠ 0 := div_ne_zero hp hs
  subst ha
  rcases lt_or_eq_of_le hdle with hlt | heq
  · rw [priceDeviationTooHigh_eq_false_iff _ p s d hp hs (ne_of_lt hlt),
      div_self hps]
    constructor
    · rw [div_lt_one (by norm_num : (0 : ℚ) < 1000000)]
      linarith
    · rw [lt_div_iff₀ (by linarith : (0 : ℚ) < 1000000 - d)]
      linarith
  · subst heq
    rw [priceDeviationTooHigh_boundary _ p s hp hs, div_self hps]
    norm_num

/-- Claim C7 counterexample: with `averageRate = spotRate = 0` (zero
primary balance) and deviation `1000 > 0` the guard returns `true`; with
`averageRate = spotRate = 1` and deviation `2000000 > 0` it also returns
`true` — both refute the unrestricted identity clause. -/
theorem calculatePriceDeviationTooHigh_identity_cex :
    calculatePriceDeviationTooHigh 0 0 1 1000 = true ∧ (0 : ℚ) = 0 / 1 ∧
      (0 : ℚ) < 1000 ∧
    calculatePriceDeviationTooHigh 1 1 1 2000000 = true ∧ (1 : ℚ) = 1 / 1 ∧
      (0 : ℚ) < 2000000 := by
  refine ⟨by norm_num [calculatePriceDeviationTooHigh, jsDiv, dividedBy,
      isGreaterThan],
    by norm_num, by norm_num,
    by norm_num [calculatePriceDeviationTooHigh, jsDiv, dividedBy,
      isGreaterThan],
    by norm_num, by norm_num⟩

/-- Claim C7 witness. -/
theorem calculatePriceDeviationTooHigh_characterisation_witness :
    calculatePriceDeviationTooHigh (3 / 4) 3 4 5 = false :=
  calculatePriceDeviationTooHigh_characterisation.2.2 (3 / 4) 3 4 5
    (by norm_num) (by norm_num) (by norm_num) (by norm_num) (by norm_num)

/-- Claim C8, confirmed: the effective limit is `poolLimitWei` unless that
string is exactly `"0"`, in which case `defaultLimitWei` is used, and
`tknLimitWei = (effectiveLimit − mintedWei) × (tknReserve / bntReserve) ×
0.999`; in particular `calculateLimits "0" "1000" "200" …` computes with
effective limit 1000. -/
theorem calculateLimits_effective_limit :
    (∀ p d m t b : String,
      (calculateLimits p d m t b).tknLimitWei =
        (bigNum (if p ≠ "0" then p else d) - bigNum m) *
          (bigNum t / bigNum b) * (999 / 1000)) ∧
    (∀ t b : String,
      (calculateLimits "0" "1000" "200" t b).tknLimitWei =
        (1000 - 200) * (bigNum t / bigNum b) * (999 / 1000)) := by
  have h999 : bigNum "99.9" = 999 / 10 := by
    rw [bigNum, show bigNumParts "99.9" = (false, 99, 9, 1) from by decide]
    norm_num
  have h100 : bigNum "100" = 100 := by
    rw [bigNum, show bigNumParts "100" = (false, 100, 0, 0) from by decide]
    norm_num
  have hbuf : bigNum "99.9" / bigNum "100" = 999 / 1000 := by
    rw [h999, h100]
    norm_num
  constructor
  · intro p d m t b
    simp only [calculateLimits, hbuf]
    ring
  · intro t b
    have h1000 : bigNum "1000" = 1000 := by
      rw [bigNum, show bigNumParts "1000" = (false, 1000, 0, 0) from by decide]
      norm_num
    have h200 : bigNum "200" = 200 := by
      rw [bigNum, show bigNumParts "200" = (false, 200, 0, 0) from by decide]
      norm_num
    simp only [calculateLimits, hbuf, if_neg (by decide : ¬("0" : String) ≠ "0"),
      h1000, h200]
    ring

/-- Claim C9, confirmed: `groupPositionsArray` dereferences
`arr[0].pendingReserveReward` before grouping, so the empty input fails
(modelled as `none`) rather than returning an empty group list, while every
non-empty input evaluates successfully. -/
theorem groupPositionsArray_empty_input :
    groupPositionsArray [] = none ∧
    ∀ arr : List ViewProtectedLiquidity, arr ≠ [] →
      (groupPositionsArray arr).isSome = true := by
  refine ⟨rfl, ?_⟩
  intro arr h
  rw [groupPositionsArray_eq_buildGroups arr h]
  rfl

/-- Claim C9 witness. -/
theorem groupPositionsArray_empty_input_witness :
    (groupPositionsArray [zeroStakePos]).isSome = true :=
  groupPositionsArray_empty_input.2 [zeroStakePos] (by simp)

/-- Claim C10, confirmed: the returned `bntLimitWei` is the `mintedWei`
argument itself, unchanged — for no input is it the remaining headroom, and
it ignores the limits and reserve balances (shown concretely: with pool
limit 500 and minted 200 it is 200, not 300). -/
theorem calculateLimits_bntLimit_is_minted :
    (∀ p d m t b : String, (calculateLimits p d m t b).bntLimitWei = m) ∧
    bigNum (calculateLimits "500" "1000" "200" "1" "1").bntLimitWei ≠
      bigNum "500" - bigNum "200" := by
  refine ⟨fun p d m t b => rfl, ?_⟩
  have hb : (calculateLimits "500" "1000" "200" "1" "1").bntLimitWei =
      "200" := rfl
  rw [hb]
  simp only [bigNum, show bigNumParts "200" = (false, 200, 0, 0) from by decide,
    show bigNumParts "500" = (false, 500, 0, 0) from by decide]
  norm_num

/-- Claim C2, corrected: one group per `(poolId, symbol)` pair with the
stake sum over exactly the matching inputs holds only when distinct pairs
yield distinct `` `${poolId}-${symbol}` `` key strings; with hyphen-induced
key collisions a present pair can end up with no group of its own.  Under
that key-injectivity proviso, every pair present in the input owns exactly
one group, whose `stake.amount` is the arithmetic sum of the matching
members' stakes. -/
theorem groupPositionsArray_one_group_per_pair
    (arr : List ViewProtectedLiquidity) (hne : arr ≠ [])
    (hinj : KeyInjOn arr) (p s : String)
    (hpair : arr.any
      (fun v => v.stake.poolId == p && v.stake.symbol == s) = true) :
    (((groupPositionsArray arr).getD []).filter
        (fun g => g.poolId == p && g.symbol == s)).length = 1 ∧
    ∀ g ∈ (groupPositionsArray arr).getD [], g.poolId = p → g.symbol = s →
      g.stake.amount = sumStakeAmount (filteredFor arr p s) := by
  rw [groupPositionsArray_eq_buildGroups arr hne]
  simp only [Option.getD_some]
  obtain ⟨v₀, hv₀mem, hv₀⟩ := List.any_eq_true.mp hpair
  rw [Bool.and_eq_true, beq_iff_eq, beq_iff_eq] at hv₀
  have hv₀k : keyOf v₀ = p ++ "-" ++ s := by
    rw [keyOf, hv₀.1, hv₀.2]
  have hkmem : (p ++ "-" ++ s) ∈ (firstOccs arr).map keyOf := by
    rw [mem_keys_firstOccs]
    exact List.mem_map.mpr ⟨v₀, hv₀mem, hv₀k⟩
  obtain ⟨w, hw, hwk⟩ := List.mem_map.mp hkmem
  have hwmem : w ∈ arr := mem_of_mem_firstOccs arr w hw
  have hwps := hinj w hwmem v₀ hv₀mem (by rw [hwk, hv₀k])
  have hwp : w.stake.poolId = p := hwps.1.trans hv₀.1
  have hws : w.stake.symbol = s := hwps.2.trans hv₀.2
  constructor
  · rw [List.filter_map, List.length_map]
    have hq : ∀ x, ((fun g : ViewGroupedPositions =>
        g.poolId == p && g.symbol == s) ∘ buildGroup arr) x = true ↔
        (x.stake.poolId = p ∧ x.stake.symbol = s) := by
      intro x
      simp [Function.comp, buildGroup_poolId, buildGroup_symbol]
    have hmemw : w ∈ (firstOccs arr).filter ((fun g : ViewGroupedPositions =>
        g.poolId == p && g.symbol == s) ∘ buildGroup arr) :=
      List.mem_filter.mpr ⟨hw, (hq w).mpr ⟨hwp, hws⟩⟩
    have hge : 1 ≤ ((firstOccs arr).filter ((fun g : ViewGroupedPositions =>
        g.poolId == p && g.symbol == s) ∘ buildGroup arr)).length :=
      List.length_pos_of_mem hmemw
    have hle := length_filter_le_one
      (l := firstOccs arr)
      (q := (fun g : ViewGroupedPositions =>
        g.poolId == p && g.symbol == s) ∘ buildGroup arr)
      ((nodup_keys_firstOccs arr).of_map keyOf)
      (fun x hx y hy hqx hqy => by
        have hx' := (hq x).mp hqx
        have hy' := (hq y).mp hqy
        refine List.inj_on_of_nodup_map (nodup_keys_firstOccs arr) hx hy ?_
        simp only [keyOf]
        rw [hx'.1, hx'.2, hy'.1, hy'.2])
    omega
  · intro g hg hgp hgs
    obtain ⟨v, hv, rfl⟩ := List.mem_map.mp hg
    rw [buildGroup_poolId] at hgp
    rw [buildGroup_symbol] at hgs
    rw [buildGroup_stake_amount, hgp, hgs]

/-- Claim C2 counterexample: the pairs `("a-b", "c")` and `("a", "b-c")`
share the key string `"a-b-c"`; the output holds a single group, for
`("a-b", "c")` with stake 1, and no group at all for the present pair
`("a", "b-c")` (whose stake sum would be 2). -/
theorem groupPositionsArray_key_collision_cex :
    ((groupPositionsArray [cexPosHyphenPool, cexPosHyphenSymbol]).map
        (fun out => out.map (fun g => (g.poolId, g.symbol, g.stake.amount)))) =
      some [("a-b", "c", (1 : ℚ))] ∧
    (((groupPositionsArray [cexPosHyphenPool, cexPosHyphenSymbol]).getD
        []).filter (fun g => g.poolId == "a" && g.symbol == "b-c")).length =
      0 ∧
    (0 : ℕ) ≠ 1 := by
  refine ⟨?_, ?_, by norm_num⟩ <;>
  · norm_num [groupPositionsArray, groupStep, keyOf, lookupG, insertG,
      applyVal, mkNewItem, filteredFor, sumStakeAmount, sumFullyProtected,
      sumFullyProtectedWithReward, sumProtectedWithReward, sumProtectedAmount,
      sumFees, compareString, cexPosHyphenPool, cexPosHyphenSymbol,
      sortCollapsed, jsDiv, List.insertionSort, List.orderedInsert, timeDesc,
      List.filterMap_cons, List.filterMap_nil,
      show ("a-b" ++ "-" ++ "c" : String) = "a-b-c" from by decide,
      show ("a" ++ "-" ++ "b-c" : String) = "a-b-c" from by decide,
      show (("a-b" : String) == "a") = false from by decide,
      show (("a" : String) == "a-b") = false from by decide,
      show (("c" : String) == "b-c") = false from by decide,
      show (("b-c" : String) == "c") = false from by decide,
      show (("c" : String) == "BNT") = false from by decide,
      show (("b-c" : String) == "BNT") = false from by decide]

/-- Claim C2 witness. -/
theorem groupPositionsArray_one_group_per_pair_witness :
    (((groupPositionsArray [c1pos1, c1pos2]).getD []).filter
        (fun g => g.poolId == "P1" && g.symbol == "BNT")).length = 1 :=
  (groupPositionsArray_one_group_per_pair [c1pos1, c1pos2] (by simp)
    (by unfold KeyInjOn; decide) "P1" "BNT" (by decide)).1

/-! ### Permutation support lemmas -/

theorem mem_membersOf_iff (arr : List ViewProtectedLiquidity) (k : String)
    (x : ViewProtectedLiquidity) :
    x ∈ membersOf arr k ↔ x ∈ arr ∧ keyOf x = k := by
  simp [membersOf, List.mem_filter]

theorem sumStakeAmount_perm {l l' : List ViewProtectedLiquidity}
    (h : l.Perm l') : sumStakeAmount l = sumStakeAmount l' :=
  (h.map _).sum_eq

theorem sumFees_perm {l l' : List ViewProtectedLiquidity}
    (h : l.Perm l') : sumFees l = sumFees l' :=
  (h.map _).sum_eq

theorem mkNewItem_insuranceStart (arr : List ViewProtectedLiquidity)
    (v : ViewProtectedLiquidity) :
    (mkNewItem arr v).insuranceStart = v.insuranceStart := rfl

theorem mkNewItem_collapsedData (arr : List ViewProtectedLiquidity)
    (v : ViewProtectedLiquidity) :
    (mkNewItem arr v).collapsedData = [] := rfl

theorem buildGroup_insuranceStart (arr : List ViewProtectedLiquidity)
    (v : ViewProtectedLiquidity) :
    (buildGroup arr v).insuranceStart =
      ((membersOf arr (keyOf v)).map (fun x => x.insuranceStart)).foldl min
        v.insuranceStart := by
  rw [buildGroup, foldl_applyVal_insuranceStart, mkNewItem_insuranceStart,
    List.foldl_map]

theorem buildGroup_collapsed_spec (arr : List ViewProtectedLiquidity)
    (hinj : KeyInjOn arr) (v : ViewProtectedLiquidity)
    (_hv : v ∈ firstOccs arr) :
    (buildGroup arr v).collapsedData.Perm
      (if 1 < (membersOf arr (keyOf v)).length then membersOf arr (keyOf v)
       else []) := by
  have hall : ∀ x ∈ membersOf arr (keyOf v),
      filteredFor arr x.stake.poolId x.stake.symbol =
        membersOf arr (keyOf v) := by
    intro x hx
    obtain ⟨hx_arr, hxk⟩ := (mem_membersOf_iff arr (keyOf v) x).mp hx
    rw [filteredFor_eq_membersOf arr hinj x hx_arr, hxk]
  by_cases hlen : 1 < (membersOf arr (keyOf v)).length
  · rw [if_pos hlen]
    have h1 := foldl_applyVal_collapsed_perm arr (membersOf arr (keyOf v))
      (fun x hx => by rw [hall x hx]; exact hlen) (mkNewItem arr v)
    rw [buildGroup]
    simpa [mkNewItem_collapsedData] using h1
  · rw [if_neg hlen]
    rw [buildGroup, foldl_applyVal_collapsed_eq arr (membersOf arr (keyOf v))
      (fun x hx => by rw [hall x hx]; exact hlen) (mkNewItem arr v),
      mkNewItem_collapsedData]

/-- Claim C3, corrected: permuting the input preserves the set of group ids
and, per id, the `stake.amount` and `fees` sums, the minimal
`insuranceStart`, and `collapsedData` up to its internal ordering (which is
always sorted descending by `stake.unixTime`) — provided pairs have
collision-free keys.  But the fields inherited from the group's
*first-listed* member (`positionId`, `apr`, the pending reward and hence the
reward-adjusted `fullyProtected` amount, and the coverage fields kept on
`insuranceStart` ties) do depend on the input order, so the full
"identical GroupedPosition sets" claim fails. -/
theorem groupPositionsArray_permutation_invariance
    (arr arr' : List ViewProtectedLiquidity) (hne : arr ≠ [])
    (hperm : arr.Perm arr') (hinj : KeyInjOn arr) :
    ((((groupPositionsArray arr).getD []).map (fun g => g.id)).Perm
      (((groupPositionsArray arr').getD []).map (fun g => g.id))) ∧
    (∀ g ∈ (groupPositionsArray arr).getD [],
     ∀ g' ∈ (groupPositionsArray arr').getD [], g.id = g'.id →
      g.poolId = g'.poolId ∧ g.symbol = g'.symbol ∧
      g.stake.amount = g'.stake.amount ∧ g.fees = g'.fees ∧
      g.insuranceStart = g'.insuranceStart ∧
      g.collapsedData.Perm g'.collapsedData ∧
      List.Sorted timeDesc g.collapsedData ∧
      List.Sorted timeDesc g'.collapsedData) := by
  have hne' : arr' ≠ [] := by
    intro h
    subst h
    exact hne hperm.eq_nil
  have hinj' : KeyInjOn arr' := by
    intro x hx y hy hk
    exact hinj x (hperm.mem_iff.mpr hx) y (hperm.mem_iff.mpr hy) hk
  rw [groupPositionsArray_eq_buildGroups arr hne,
    groupPositionsArray_eq_buildGroups arr' hne']
  simp only [Option.getD_some]
  constructor
  · rw [List.map_map, List.map_map]
    have e1 : List.map ((fun g : ViewGroupedPositions => g.id) ∘
        buildGroup arr) (firstOccs arr) = List.map keyOf (firstOccs arr) :=
      List.map_congr_left (fun v _ => buildGroup_id arr v)
    have e2 : List.map ((fun g : ViewGroupedPositions => g.id) ∘
        buildGroup arr') (firstOccs arr') = List.map keyOf (firstOccs arr') :=
      List.map_congr_left (fun v _ => buildGroup_id arr' v)
    rw [e1, e2]
    apply perm_of_nodup_mem_iff (nodup_keys_firstOccs arr)
      (nodup_keys_firstOccs arr')
    intro k
    rw [mem_keys_firstOccs, mem_keys_firstOccs]
    exact (hperm.map keyOf).mem_iff
  · intro g hg g' hg' hid
    obtain ⟨v, hv, rfl⟩ := List.mem_map.mp hg
    obtain ⟨v', hv', rfl⟩ := List.mem_map.mp hg'
    rw [buildGroup_id, buildGroup_id] at hid
    have hv_arr : v ∈ arr := mem_of_mem_firstOccs arr v hv
    have hv'_arr' : v' ∈ arr' := mem_of_mem_firstOccs arr' v' hv'
    have hv'_arr : v' ∈ arr := hperm.mem_iff.mpr hv'_arr'
    have hps := hinj v hv_arr v' hv'_arr hid
    have hmembers : (membersOf arr (keyOf v)).Perm
        (membersOf arr' (keyOf v')) := by
      rw [hid]
      exact hperm.filter _
    refine ⟨?_, ?_, ?_, ?_, ?_, ?_, buildGroup_collapsed_sorted arr v,
      buildGroup_collapsed_sorted arr' v'⟩
    · rw [buildGroup_poolId, buildGroup_poolId, hps.1]
    · rw [buildGroup_symbol, buildGroup_symbol, hps.2]
    · rw [buildGroup_stake_amount, buildGroup_stake_amount, hps.1, hps.2]
      exact sumStakeAmount_perm (hperm.filter _)
    · rw [buildGroup_fees, buildGroup_fees, hps.1, hps.2]
      exact sumFees_perm (hperm.filter _)
    · rw [buildGroup_insuranceStart, buildGroup_insuranceStart]
      exact foldl_min_perm_eq _ _ _ _ (hmembers.map _)
        (List.mem_map.mpr ⟨v, mem_membersOf_self arr v hv_arr, rfl⟩)
        (List.mem_map.mpr ⟨v', mem_membersOf_self arr' v' hv'_arr', rfl⟩)
    · have h1 := buildGroup_collapsed_spec arr hinj v hv
      have h2 := buildGroup_collapsed_spec arr' hinj' v' hv'
      have hlen : (membersOf arr (keyOf v)).length =
          (membersOf arr' (keyOf v')).length := hmembers.length_eq
      by_cases hl : 1 < (membersOf arr (keyOf v)).length
      · rw [if_pos hl] at h1
        rw [if_pos (by rw [← hlen]; exact hl)] at h2
        exact h1.trans (hmembers.trans h2.symm)
      · rw [if_neg hl] at h1
        rw [if_neg (by rw [← hlen]; exact hl)] at h2
        exact h1.trans h2.symm

/-- Claim C3 counterexample: swapping the two members of the spec's scenario
group changes the reported `positionId` ("pos1" vs "pos2"), `apr` (1 vs 2),
the tie-kept `coverageDecPercent` (7 vs 9, both members sharing the minimal
`insuranceStart`), and the reward-adjusted `fullyProtected.amount` (170 vs
167) — the output sets are not identical under permutation. -/
theorem groupPositionsArray_permutation_cex :
    ((groupPositionsArray [c1pos1, c1pos2]).map (fun out => out.map (fun g =>
        (g.positionId, g.apr, g.coverageDecPercent,
          g.fullyProtected.amount)))) =
      some [("pos1", (1 : ℚ), (7 : ℚ), (170 : ℚ))] ∧
    ((groupPositionsArray [c1pos2, c1pos1]).map (fun out => out.map (fun g =>
        (g.positionId, g.apr, g.coverageDecPercent,
          g.fullyProtected.amount)))) =
      some [("pos2", (2 : ℚ), (9 : ℚ), (167 : ℚ))] ∧
    ¬(("pos1", (1 : ℚ), (7 : ℚ), (170 : ℚ)) =
      ("pos2", (2 : ℚ), (9 : ℚ), (167 : ℚ))) := by
  refine ⟨?_, ?_, by norm_num⟩ <;>
  · norm_num [groupPositionsArray, groupStep, keyOf, lookupG, insertG,
      applyVal, mkNewItem, filteredFor, sumStakeAmount, sumFullyProtected,
      sumFullyProtectedWithReward, sumProtectedWithReward, sumProtectedAmount,
      sumFees, compareString, c1pos1, c1pos2, sortCollapsed, jsDiv,
      List.insertionSort, List.orderedInsert, timeDesc, List.filterMap_cons,
      List.filterMap_nil]

/-- Claim C3 witness. -/
theorem groupPositionsArray_permutation_invariance_witness :
    (((groupPositionsArray [c1pos1, c1pos2]).getD []).map (fun g => g.id)).Perm
      (((groupPositionsArray [c1pos2, c1pos1]).getD []).map (fun g => g.id)) :=
  (groupPositionsArray_permutation_invariance [c1pos1, c1pos2]
    [c1pos2, c1pos1] (by simp) (List.Perm.swap c1pos2 c1pos1 [])
    (by unfold KeyInjOn; decide)).1

end Webapp
